import Mathlib

/-!
Shallow embedding of `src/dreamchecker/main.rs` (DreamChecker's procedure
analyzer, `ProcAnalyzer`) together with proofs about its analysis rules.

The analyzer walks an already-parsed procedure body, computing for every
expression an abstract value (`Analysis`): a value shape (`Ty`) plus an
optional known constant.  The class hierarchy (`ObjectTree` in the Rust
code, an external collaborator) is modelled abstractly as a structure of
lookup functions; class references (`TypeRef`) are opaque node identifiers.

Rust `eprintln!` diagnostics are modelled as a list of `Diag` records
threaded through the walk; a Rust `unwrap` panic is modelled as `Option`
failure (`none`).
-/

/-- Opaque identifier of a node of the class hierarchy (`TypeRef<'o>`). -/
abbrev TypeRef := Nat

/-- `dm::ast::PathOp`: separators of a type path. -/
inductive PathOp
  | slash
  | dot
  | colon
  deriving DecidableEq, Repr

/-- A relative type path as appearing in a prefab (`Vec<(PathOp, String)>`). -/
abbrev TypePath := List (PathOp × String)

/-- An absolute tree path (`Vec<String>`), e.g. a declared variable type. -/
abbrev TreePath := List String

/-- The declared-variable information `get_var_declaration` returns: its
declared type path (`decl.var_type.type_path`). -/
structure VarDeclaration where
  type_path : TreePath
  deriving DecidableEq, Repr

/-- The class hierarchy (`ObjectTree` plus `TypeRef` navigation), an external
read-only collaborator, modelled as its lookup interface. -/
structure ObjectTree where
  /-- `ObjectTree::find(path)` -/
  find : String → Option TypeRef
  /-- `ObjectTree::type_by_path(path)` -/
  type_by_path : TreePath → Option TypeRef
  /-- `TypeRef::navigate_path(path)`: resolve a relative path starting from
  a given node (supports ascending before descending). -/
  navigate_path : TypeRef → TypePath → Option TypeRef
  /-- `TypeRef::get_var_declaration(name)`: a field declared on the class or
  an ancestor. -/
  get_var_declaration : TypeRef → String → Option VarDeclaration
  /-- `TypeRef::is_root()` -/
  is_root : TypeRef → Bool

/-- `dm::constants::ConstFn`: named-constructor constants. -/
inductive ConstFn
  | icon
  | matrix
  | newlist
  | sound
  deriving DecidableEq, Repr

/-- `dm::constants::Constant`: the opaque folded-constant representation.
Payloads the analyzer never inspects are elided or kept opaque (`Float`'s
payload is its bit pattern; `List`'s and `Call`'s contents are dropped the
way the analyzer's patterns drop them). -/
inductive Constant
  | Null
  | String (s : String)
  | Resource (s : String)
  | Int (n : Int)
  | Float (bits : Nat)
  | List
  | Call (f : ConstFn)
  | Other
  deriving DecidableEq, Repr

/-- `Type<'o>`: the value-shape lattice. -/
inductive Ty
  | Any
  | Null
  | String
  | Resource
  | Number
  | List (elem : Option TypeRef)
  | Instance (t : TypeRef)
  | Typepath (t : TypeRef)
  | Global
  deriving DecidableEq, Repr

/-- `Type::from_constant`: the constant-to-shape rule.  The `unwrap` on the
well-known-class lookups (`/icon`, `/matrix`, `/sound`) is modelled as
`Option` failure. -/
def Ty.from_constant (objtree : ObjectTree) (constant : Constant) : Option Ty :=
  match constant with
  | .Null => some .Null
  | .String _ => some .String
  | .Resource _ => some .Resource
  | .Int _ => some .Number
  | .Float _ => some .Number
  | .List => some (.List none)
  | .Call f =>
    match f with
    | .icon => (objtree.find "/icon").map Ty.Instance
    | .matrix => (objtree.find "/matrix").map Ty.Instance
    | .newlist => some (.List none)
    | .sound => (objtree.find "/sound").map Ty.Instance
  | .Other => some .Any

/-- `Analysis<'o>`: an abstract value — a shape plus an optional known
constant. -/
structure Analysis where
  ty : Ty
  value : Option Constant
  deriving DecidableEq, Repr

/-- `impl From<Type> for Analysis`: a shape with no constant. -/
def Analysis.ofType (ty : Ty) : Analysis := ⟨ty, none⟩

/-- `Analysis::empty()`: the unconstrained abstract value. -/
def Analysis.empty : Analysis := Analysis.ofType .Any

/-- `Analysis::null()`: the null shape carrying the null constant. -/
def Analysis.null : Analysis := ⟨.Null, some .Null⟩

/-- `Analysis::from_value`: wrap a constant, classifying its shape. -/
def Analysis.from_value (objtree : ObjectTree) (value : Constant) : Option Analysis :=
  (Ty.from_constant objtree value).map fun ty => ⟨ty, some value⟩

/-- One record per `eprintln!` diagnostic site of the analyzer. -/
inductive Diag
  | varTypeNotFound (path : TreePath)
  | implicitNewNoHint
  | pathFailed (path : TypePath)
  | identTypeFailed (name : String) (path : TreePath)
  | identUnresolved (name : String)
  | unhandledTerm
  | followIndex
  | unaryUnhandled
  | binaryUnhandled
  | callUnhandled (name : String)
  deriving DecidableEq, Repr

/-- The per-procedure variable environment (`HashMap<String, Analysis>`),
modelled as an association list where insertion prepends and lookup takes
the first (most recent) binding. -/
abbrev Env := List (String × Analysis)

/-- `HashMap::insert`: bind a name, shadowing any prior binding. -/
def Env.insert (e : Env) (k : String) (v : Analysis) : Env := (k, v) :: e

/-- `HashMap::get`: the most recently inserted binding of the name. -/
def Env.get : Env → String → Option Analysis
  | [], _ => none
  | (k2, v) :: rest, k => if k2 = k then some v else Env.get rest k

/-- The analyzer's mutable state during a walk: its `local_vars` plus the
stream of diagnostics emitted so far. -/
structure St where
  env : Env
  diags : List Diag
  deriving DecidableEq, Repr

/-- Emit a diagnostic (an `eprintln!` in the Rust code). -/
def St.addDiag (st : St) (d : Diag) : St := { st with diags := st.diags ++ [d] }

-- ----------------------------------------------------------------------------
-- AST (`dm::ast`), as matched on by the analyzer

/-- `dm::ast::IndexKind`: `.`, `:`, `?.`, `?:`. -/
inductive IndexKind
  | Dot
  | Colon
  | SafeDot
  | SafeColon
  deriving DecidableEq, Repr

/-- `dm::ast::UnaryOp`. -/
inductive UnaryOp
  | Neg
  | Not
  | BitNot
  | PreIncr
  | PostIncr
  | PreDecr
  | PostDecr
  deriving DecidableEq, Repr

/-- `dm::ast::BinaryOp` (the analyzer treats all binary operators alike). -/
inductive BinaryOp
  | Add
  | Sub
  | Mul
  | Div
  | Eq
  | NotEq
  | Less
  | Greater
  | LShift
  | RShift
  | BitAnd
  | BitOr
  deriving DecidableEq, Repr

/-- `dm::ast::AssignOp` (ignored by the analyzer's `AssignOp { .. }` match). -/
inductive AssignOp
  | Assign
  | AddAssign
  | SubAssign
  deriving DecidableEq, Repr

/-- `dm::ast::Prefab`: a (relative) type path literal. -/
structure Prefab where
  path : TypePath
  deriving DecidableEq, Repr

mutual

/-- `dm::ast::Expression`. -/
inductive Expression
  | Base (unary : List UnaryOp) (term : Term) (follow : List Follow)
  | BinaryOp (op : BinaryOp) (lhs rhs : Expression)
  | AssignOp (op : AssignOp) (lhs rhs : Expression)
  | TernaryOp (cond if_ else_ : Expression)

/-- `dm::ast::NewType`: the target of a `new` term. -/
inductive NewType
  | Implicit
  | Ident (name : String)
  | Prefab (p : Prefab)

/-- `dm::ast::Term`.  The analyzer's wildcard arm (`don't know about`) is
represented by `Other`. -/
inductive Term
  | Null
  | New (type_ : NewType) (args : Option (List Expression))
  | List (elems : List Expression)
  | Prefab (p : Prefab)
  | String (s : String)
  | Resource (s : String)
  | Int (n : Int)
  | Float (bits : Nat)
  | Expr (e : Expression)
  | InterpString
  | Call (name : String) (args : List Expression)
  | Ident (name : String)
  | Other

/-- `dm::ast::Follow`: a field/index/call accessor. -/
inductive Follow
  | Index (e : Expression)
  | Field (kind : IndexKind) (name : String)
  | Call (kind : IndexKind) (name : String) (args : List Expression)

end

/-- `dm::ast::Case`: one switch-case match expression. -/
inductive Case
  | Exact (e : Expression)
  | Range (start end_ : Expression)

/-- `dm::ast::VarStatement`: one declaration of a `var` statement (its
declared type path, name, and optional initializer). -/
structure VarStatement where
  type_path : TreePath
  name : String
  value : Option Expression

/-- `dm::ast::Statement`. -/
inductive Statement
  | Expr (e : Expression)
  | Return (e : Option Expression)
  | Throw (e : Expression)
  | While (condition : Expression) (block : List Statement)
  | DoWhile (block : List Statement) (condition : Expression)
  | If (arms : List (Expression × List Statement)) (else_arm : Option (List Statement))
  | ForLoop (init : Option Statement) (test : Option Expression)
      (inc : Option Statement) (block : List Statement)
  | ForList (in_list : Option Expression) (block : List Statement)
  | ForRange (start end_ : Expression) (step : Option Expression)
      (block : List Statement)
  | Var (var : VarStatement)
  | Vars (vars : List VarStatement)
  | Setting
  | Spawn (delay : Option Expression) (block : List Statement)
  | Switch (input : Expression) (cases : List (List Case × List Statement))
      (default : Option (List Statement))
  | TryCatch (try_block catch_block : List Statement)
  | Continue
  | Break
  | Label (block : List Statement)
  | Del (e : Expression)

-- ----------------------------------------------------------------------------
-- The analyzer's non-recursive typing rules

/-- `ProcAnalyzer::visit_follow`: one follow accessor applied to a received
abstract value.  (The Rust code ignores `lhs` in every arm and visits
neither an index expression nor call arguments.) -/
def visit_follow (st : St) (lhs : Analysis) (rhs : Follow) : Analysis × St :=
  match rhs with
  | .Field .Colon _ => (Analysis.empty, st)
  | .Field .SafeColon _ => (Analysis.empty, st)
  | .Call .Colon _ _ => (Analysis.empty, st)
  | .Call .SafeColon _ _ => (Analysis.empty, st)
  | .Index _ => (Analysis.empty, st.addDiag .followIndex)
  | .Field _ _ => (Analysis.empty, st)
  | .Call _ _ _ => (Analysis.empty, st)

/-- `ProcAnalyzer::visit_unary`: unary operator typing. -/
def visit_unary (st : St) (rhs : Analysis) (op : UnaryOp) : Analysis × St :=
  match op, rhs.ty with
  | .Not, _ => (Analysis.ofType .Number, st)
  | .Neg, .Number => (Analysis.ofType .Number, st)
  | .BitNot, .Number => (Analysis.ofType .Number, st)
  | .PreIncr, .Number => (Analysis.ofType .Number, st)
  | .PostIncr, .Number => (Analysis.ofType .Number, st)
  | .PreDecr, .Number => (Analysis.ofType .Number, st)
  | .PostDecr, .Number => (Analysis.ofType .Number, st)
  | _, .Any => (Analysis.empty, st)
  | _, _ => (Analysis.empty, st.addDiag .unaryUnhandled)

/-- `ProcAnalyzer::visit_binary`: binary operator typing (unconditionally
unconstrained, with a diagnostic). -/
def visit_binary (st : St) (lhs rhs : Analysis) (op : BinaryOp) : Analysis × St :=
  (Analysis.empty, st.addDiag .binaryUnhandled)

/-- `ProcAnalyzer::visit_call`: call typing (unconditionally unconstrained,
with a diagnostic). -/
def visit_call (st : St) (src : TypeRef) (proc : String) (args : List Analysis) :
    Analysis × St :=
  (Analysis.empty, st.addDiag (.callUnhandled proc))

/-- The loop `for each in follow.iter() { ty = self.visit_follow(ty, each) }`. -/
def visit_follows (st : St) (a : Analysis) : List Follow → Analysis × St
  | [] => (a, st)
  | f :: rest =>
    let p := visit_follow st a f
    visit_follows p.2 p.1 rest

/-- The loop `for each in unary.iter().rev() { ty = self.visit_unary(ty, each) }`;
the caller passes the unary chain already reversed. -/
def visit_unaries (st : St) (a : Analysis) : List UnaryOp → Analysis × St
  | [] => (a, st)
  | op :: rest =>
    let p := visit_unary st a op
    visit_unaries p.2 p.1 rest

-- ----------------------------------------------------------------------------
-- The expression evaluator (`visit_expression` / `visit_term`)

mutual

/-- `ProcAnalyzer::visit_expression`: compute an abstract value for an
expression under an optional expected-shape hint. -/
def visit_expression (t : ObjectTree) (self : TypeRef) (st : St)
    (expression : Expression) (type_hint : Option TypeRef) :
    Option (Analysis × St) :=
  match expression with
  | .Base unary term follow =>
    let base_type_hint := if follow.isEmpty && unary.isEmpty then type_hint else none
    match visit_term t self st term base_type_hint with
    | none => none
    | some (ty1, st1) =>
      let p2 := visit_follows st1 ty1 follow
      some (visit_unaries p2.2 p2.1 unary.reverse)
  | .BinaryOp op lhs rhs =>
    match visit_expression t self st lhs none with
    | none => none
    | some (lty, st1) =>
      match visit_expression t self st1 rhs none with
      | none => none
      | some (rty, st2) => some (visit_binary st2 lty rty op)
  | .AssignOp _ lhs rhs =>
    match visit_expression t self st lhs none with
    | none => none
    | some (_, st1) => visit_expression t self st1 rhs none
  | .TernaryOp cond if_ else_ =>
    match visit_expression t self st cond none with
    | none => none
    | some (_, st1) =>
      match visit_expression t self st1 if_ type_hint with
      | none => none
      | some (ty, st2) =>
        match visit_expression t self st2 else_ type_hint with
        | none => none
        | some (_, st3) => some (ty, st3)
termination_by sizeOf expression

/-- `ProcAnalyzer::visit_term`: resolve a term under an optional
expected-shape hint. -/
def visit_term (t : ObjectTree) (self : TypeRef) (st : St) (term : Term)
    (type_hint : Option TypeRef) : Option (Analysis × St) :=
  match term with
  | .Null => some (Analysis.null, st)
  | .New type_ _ =>
    match type_ with
    | .Implicit =>
      match type_hint with
      | some hint => some (Analysis.ofType (.Instance hint), st)
      | none => some (Analysis.empty, st.addDiag .implicitNewNoHint)
    | .Ident _ => some (Analysis.ofType .Any, st)
    | .Prefab prefab =>
      match t.navigate_path self prefab.path with
      | some ty => some (Analysis.ofType (.Instance ty), st)
      | none => some (Analysis.empty, st.addDiag (.pathFailed prefab.path))
  | .List _ => some (Analysis.ofType (.List none), st)
  | .Prefab prefab =>
    match t.navigate_path self prefab.path with
    | some ty => some (Analysis.ofType (.Typepath ty), st)
    | none => some (Analysis.empty, st.addDiag (.pathFailed prefab.path))
  | .String text => (Analysis.from_value t (.String text)).map fun a => (a, st)
  | .Resource text => (Analysis.from_value t (.Resource text)).map fun a => (a, st)
  | .Int number => (Analysis.from_value t (.Int number)).map fun a => (a, st)
  | .Float number => (Analysis.from_value t (.Float number)).map fun a => (a, st)
  | .Expr expr => visit_expression t self st expr type_hint
  | .InterpString => some (Analysis.ofType .String, st)
  | .Call unscoped_name args =>
    match visit_args t self st args with
    | none => none
    | some (argtys, st1) => some (visit_call st1 self unscoped_name argtys)
  | .Ident unscoped_name =>
    match Env.get st.env unscoped_name with
    | some var => some (var, st)
    | none =>
      match t.get_var_declaration self unscoped_name with
      | some decl =>
        match t.type_by_path decl.type_path with
        | some ty => some (Analysis.ofType (.Instance ty), st)
        | none =>
          some (Analysis.empty,
            st.addDiag (.identTypeFailed unscoped_name decl.type_path))
      | none => some (Analysis.empty, st.addDiag (.identUnresolved unscoped_name))
  | .Other => some (Analysis.empty, st.addDiag .unhandledTerm)
termination_by sizeOf term

/-- The argument loop of `Term::Call`: each argument is evaluated with no
hint, collecting the abstract values. -/
def visit_args (t : ObjectTree) (self : TypeRef) (st : St) :
    List Expression → Option (List Analysis × St)
  | [] => some ([], st)
  | e :: rest =>
    match visit_expression t self st e none with
    | none => none
    | some (a, st1) =>
      match visit_args t self st1 rest with
      | none => none
      | some (as_, st2) => some (a :: as_, st2)
termination_by es => sizeOf es

end

-- ----------------------------------------------------------------------------
-- The statement walker

/-- The "Calculate type hint" phase of `ProcAnalyzer::visit_var`: an empty
declared path means no hint; a non-empty one is resolved by `type_by_path`,
a failure emitting a diagnostic and leaving the hint absent. -/
def var_type_hint (t : ObjectTree) (st : St) (path : TreePath) :
    Option TypeRef × St :=
  if path.isEmpty then
    (none, st)
  else
    match t.type_by_path path with
    | some ty => (some ty, st)
    | none => (none, st.addDiag (.varTypeNotFound path))

/-- `ProcAnalyzer::visit_var`: resolve the optional declared type path to a
hint, evaluate the initializer (or use the null abstract value), and bind
the name, overwriting any prior binding. -/
def visit_var (t : ObjectTree) (self : TypeRef) (st : St) (var : VarStatement) :
    Option St :=
  let hinted := var_type_hint t st var.type_path
  match var.value with
  | some expr =>
    match visit_expression t self hinted.2 expr hinted.1 with
    | none => none
    | some (val, st1) => some { st1 with env := st1.env.insert var.name val }
  | none => some { hinted.2 with env := hinted.2.env.insert var.name Analysis.null }

/-- The loop over the declarations of a `Statement::Vars`. -/
def visit_vars (t : ObjectTree) (self : TypeRef) (st : St) :
    List VarStatement → Option St
  | [] => some st
  | v :: rest =>
    match visit_var t self st v with
    | none => none
    | some st1 => visit_vars t self st1 rest

/-- The loop over one switch case's match expressions (exact values or range
endpoints), each evaluated with no hint. -/
def visit_case_parts (t : ObjectTree) (self : TypeRef) (st : St) :
    List Case → Option St
  | [] => some st
  | .Exact e :: rest =>
    match visit_expression t self st e none with
    | none => none
    | some (_, st1) => visit_case_parts t self st1 rest
  | .Range start end_ :: rest =>
    match visit_expression t self st start none with
    | none => none
    | some (_, st1) =>
      match visit_expression t self st1 end_ none with
      | none => none
      | some (_, st2) => visit_case_parts t self st2 rest

/-- `self.visit_expression(expr, None)` in statement position: evaluate with
no hint and discard the abstract value. -/
def visit_expr_stmt (t : ObjectTree) (self : TypeRef) (st : St)
    (expr : Expression) : Option St :=
  (visit_expression t self st expr none).map Prod.snd

/-- An `if let Some(expr) = ... { self.visit_expression(expr, None); }`
pattern: evaluate an optional control sub-expression with no hint. -/
def visit_opt_expr (t : ObjectTree) (self : TypeRef) (st : St) :
    Option Expression → Option St
  | none => some st
  | some expr => visit_expr_stmt t self st expr

mutual

/-- `ProcAnalyzer::visit_statement`: walk one statement, threading the
single environment. -/
def visit_statement (t : ObjectTree) (self : TypeRef) (st : St)
    (statement : Statement) : Option St :=
  match statement with
  | .Expr expr => visit_expr_stmt t self st expr
  | .Return (some expr) => visit_expr_stmt t self st expr
  | .Return none => some st
  | .Throw expr => visit_expr_stmt t self st expr
  | .While condition block =>
    (visit_expr_stmt t self st condition).bind fun st1 =>
      visit_block t self st1 block
  | .DoWhile block condition =>
    (visit_block t self st block).bind fun st1 =>
      visit_expr_stmt t self st1 condition
  | .If arms else_arm =>
    (visit_arms t self st arms).bind fun st1 =>
      visit_opt_block t self st1 else_arm
  | .ForLoop init test inc block =>
    (visit_opt_statement t self st init).bind fun st1 =>
      (visit_opt_expr t self st1 test).bind fun st2 =>
        (visit_opt_statement t self st2 inc).bind fun st3 =>
          visit_block t self st3 block
  | .ForList in_list block =>
    (visit_opt_expr t self st in_list).bind fun st1 =>
      visit_block t self st1 block
  | .ForRange start end_ step block =>
    (visit_expr_stmt t self st start).bind fun st1 =>
      (visit_expr_stmt t self st1 end_).bind fun st2 =>
        (visit_opt_expr t self st2 step).bind fun st3 =>
          visit_block t self st3 block
  | .Var var => visit_var t self st var
  | .Vars vars => visit_vars t self st vars
  | .Setting => some st
  | .Spawn delay block =>
    (visit_opt_expr t self st delay).bind fun st1 =>
      visit_block t self st1 block
  | .Switch input cases default =>
    (visit_expr_stmt t self st input).bind fun st1 =>
      (visit_cases t self st1 cases).bind fun st2 =>
        visit_opt_block t self st2 default
  | .TryCatch try_block catch_block =>
    (visit_block t self st try_block).bind fun st1 =>
      visit_block t self st1 catch_block
  | .Continue => some st
  | .Break => some st
  | .Label block => visit_block t self st block
  | .Del expr => visit_expr_stmt t self st expr
termination_by sizeOf statement

/-- The `if let Some(init) = init { self.visit_statement(init); }` pattern of
`ForLoop`: walk an optional sub-statement. -/
def visit_opt_statement (t : ObjectTree) (self : TypeRef) (st : St) :
    Option Statement → Option St
  | none => some st
  | some s => visit_statement t self st s
termination_by os => sizeOf os

/-- The `if let Some(block) = ... { self.visit_block(block); }` pattern:
walk an optional block (an `If`'s else arm, a `Switch`'s default). -/
def visit_opt_block (t : ObjectTree) (self : TypeRef) (st : St) :
    Option (List Statement) → Option St
  | none => some st
  | some block => visit_block t self st block
termination_by ob => sizeOf ob

/-- `ProcAnalyzer::visit_block`: walk the statements of a block in order. -/
def visit_block (t : ObjectTree) (self : TypeRef) (st : St) :
    List Statement → Option St
  | [] => some st
  | stmt :: rest =>
    (visit_statement t self st stmt).bind fun st1 =>
      visit_block t self st1 rest
termination_by block => sizeOf block

/-- The loop over an `If`'s arms: each condition is evaluated with no hint,
then the arm's block is walked in the same environment. -/
def visit_arms (t : ObjectTree) (self : TypeRef) (st : St) :
    List (Expression × List Statement) → Option St
  | [] => some st
  | (condition, block) :: rest =>
    (visit_expr_stmt t self st condition).bind fun st1 =>
      (visit_block t self st1 block).bind fun st2 =>
        visit_arms t self st2 rest
termination_by arms => sizeOf arms

/-- The loop over a `Switch`'s cases: each case's match expressions are
evaluated with no hint, then its block is walked. -/
def visit_cases (t : ObjectTree) (self : TypeRef) (st : St) :
    List (List Case × List Statement) → Option St
  | [] => some st
  | (case, block) :: rest =>
    (visit_case_parts t self st case).bind fun st1 =>
      (visit_block t self st1 block).bind fun st2 =>
        visit_cases t self st2 rest
termination_by cases => sizeOf cases

end

/-- The seeding of `ProcAnalyzer::new`: the implicit return slot, `args`,
`usr`, `src` (unless the owner is the hierarchy root), and `global`.  The
`unwrap` on the `/mob` lookup is modelled as `Option` failure. -/
def ProcAnalyzer.new (t : ObjectTree) (ty : TypeRef) : Option St :=
  match t.find "/mob" with
  | none => none
  | some mob =>
    let e0 : Env := []
    let e1 := e0.insert "." Analysis.empty
    let e2 := e1.insert "args" (Analysis.ofType (.List none))
    let e3 := e2.insert "usr" (Analysis.ofType (.Instance mob))
    let e4 := if t.is_root ty then e3 else e3.insert "src" (Analysis.ofType (.Instance ty))
    let e5 := e4.insert "global" (Analysis.ofType .Global)
    some { env := e5, diags := [] }

/-- `ProcAnalyzer::run`: seed each declared parameter as unconstrained, then
walk the body. -/
def ProcAnalyzer.run (t : ObjectTree) (self : TypeRef) (st : St)
    (parameters : List String) (block : List Statement) : Option St :=
  let st1 := parameters.foldl
    (fun acc p => { acc with env := acc.env.insert p Analysis.empty }) st
  visit_block t self st1 block

-- ----------------------------------------------------------------------------
-- Consistency of abstract values, and concrete fixtures for witnesses

/-- The documented invariant of `Analysis`: a constant, when present, has
exactly the abstract value's shape under the constant-to-shape rule. -/
def consistent (t : ObjectTree) (a : Analysis) : Prop :=
  ∀ c, a.value = some c → Ty.from_constant t c = some a.ty

/-- An empty analyzer state (no bindings, no diagnostics yet). -/
def st0 : St := { env := [], diags := [] }

/-- A small concrete class hierarchy for evaluating the theorems on closed
inputs: every `find` succeeds on node 0, the absolute path `A/B/C` resolves
to node 5, relative navigation always fails, and class node 1 declares a
field `n` of declared type `obj/foo` (which resolves to node 7). -/
def t0 : ObjectTree where
  find := fun _ => some 0
  type_by_path := fun p =>
    if p = ["A", "B", "C"] then some 5
    else if p = ["obj", "foo"] then some 7
    else none
  navigate_path := fun _ _ => none
  get_var_declaration := fun _ n => if n = "n" then some ⟨["obj", "foo"]⟩ else none
  is_root := fun _ => false

/-- The spec's branch-non-isolation example:
`if (cond) { var/x = "a" } else { var/x = 1 }` with a trivially true
condition. -/
def exIf : Statement :=
  .If [(.Base [] (.Int 1) [], [.Var ⟨[], "x", some (.Base [] (.String "a") [])⟩])]
    (some [.Var ⟨[], "x", some (.Base [] (.Int 1) [])⟩])

-- ----------------------------------------------------------------------------
-- Basic lemmas: diagnostics never touch the environment

theorem St.addDiag_env (st : St) (d : Diag) : (st.addDiag d).env = st.env := rfl

theorem visit_follow_env (st : St) (a : Analysis) (f : Follow) :
    (visit_follow st a f).2.env = st.env := by
  rcases f with e | ⟨k, n⟩ | ⟨k, n, args⟩
  · rfl
  · cases k <;> rfl
  · cases k <;> rfl

theorem visit_follows_env (st : St) (a : Analysis) (fs : List Follow) :
    (visit_follows st a fs).2.env = st.env := by
  induction fs generalizing st a with
  | nil => rfl
  | cons f rest ih =>
    simp only [visit_follows]
    rw [ih, visit_follow_env]

theorem visit_unary_env (st : St) (a : Analysis) (op : UnaryOp) :
    (visit_unary st a op).2.env = st.env := by
  rcases a with ⟨ty, v⟩
  cases op <;> cases ty <;> rfl

theorem visit_unaries_env (st : St) (a : Analysis) (ops : List UnaryOp) :
    (visit_unaries st a ops).2.env = st.env := by
  induction ops generalizing st a with
  | nil => rfl
  | cons op rest ih =>
    simp only [visit_unaries]
    rw [ih, visit_unary_env]

theorem visit_binary_env (st : St) (l r : Analysis) (op : BinaryOp) :
    (visit_binary st l r op).2.env = st.env := rfl

theorem visit_call_env (st : St) (src : TypeRef) (p : String) (args : List Analysis) :
    (visit_call st src p args).2.env = st.env := rfl

-- ----------------------------------------------------------------------------
-- The expression evaluator is total (it cannot hit the `unwrap` panics) and
-- never mutates the environment; proved by mutual induction mirroring the
-- evaluator's recursion.

mutual

theorem visit_expression_some (t : ObjectTree) (self : TypeRef) (st : St)
    (e : Expression) (hint : Option TypeRef) :
    ∃ a st', visit_expression t self st e hint = some (a, st') ∧ st'.env = st.env := by
  cases e with
  | Base unary term follow =>
    obtain ⟨a1, st1, h1, henv1⟩ := visit_term_some t self st term
      (if follow.isEmpty && unary.isEmpty then hint else none)
    refine ⟨(visit_unaries (visit_follows st1 a1 follow).2
        (visit_follows st1 a1 follow).1 unary.reverse).1,
      (visit_unaries (visit_follows st1 a1 follow).2
        (visit_follows st1 a1 follow).1 unary.reverse).2, ?_, ?_⟩
    · simp only [visit_expression, h1]
    · simp only [visit_unaries_env, visit_follows_env, henv1]
  | BinaryOp op lhs rhs =>
    obtain ⟨a1, st1, h1, henv1⟩ := visit_expression_some t self st lhs none
    obtain ⟨a2, st2, h2, henv2⟩ := visit_expression_some t self st1 rhs none
    refine ⟨Analysis.empty, st2.addDiag .binaryUnhandled, ?_, ?_⟩
    · simp only [visit_expression, h1, h2]; rfl
    · rw [St.addDiag_env, henv2, henv1]
  | AssignOp op lhs rhs =>
    obtain ⟨a1, st1, h1, henv1⟩ := visit_expression_some t self st lhs none
    obtain ⟨a2, st2, h2, henv2⟩ := visit_expression_some t self st1 rhs none
    refine ⟨a2, st2, ?_, by rw [henv2, henv1]⟩
    simp only [visit_expression, h1, h2]
  | TernaryOp cond if_ else_ =>
    obtain ⟨a1, st1, h1, henv1⟩ := visit_expression_some t self st cond none
    obtain ⟨a2, st2, h2, henv2⟩ := visit_expression_some t self st1 if_ hint
    obtain ⟨a3, st3, h3, henv3⟩ := visit_expression_some t self st2 else_ hint
    refine ⟨a2, st3, ?_, by rw [henv3, henv2, henv1]⟩
    simp only [visit_expression, h1, h2, h3]
termination_by sizeOf e

theorem visit_term_some (t : ObjectTree) (self : TypeRef) (st : St)
    (term : Term) (hint : Option TypeRef) :
    ∃ a st', visit_term t self st term hint = some (a, st') ∧ st'.env = st.env := by
  cases term with
  | Null => exact ⟨Analysis.null, st, by simp only [visit_term], rfl⟩
  | New type_ args =>
    cases type_ with
    | Implicit =>
      cases hint with
      | some h =>
        exact ⟨Analysis.ofType (.Instance h), st, by simp only [visit_term], rfl⟩
      | none =>
        exact ⟨Analysis.empty, st.addDiag .implicitNewNoHint, by
          simp only [visit_term], rfl⟩
    | Ident n => exact ⟨Analysis.ofType .Any, st, by simp only [visit_term], rfl⟩
    | Prefab p =>
      cases hnav : t.navigate_path self p.path with
      | some ty =>
        exact ⟨Analysis.ofType (.Instance ty), st, by simp only [visit_term, hnav], rfl⟩
      | none =>
        exact ⟨Analysis.empty, st.addDiag (.pathFailed p.path), by
          simp only [visit_term, hnav], rfl⟩
  | List elems =>
    exact ⟨Analysis.ofType (.List none), st, by simp only [visit_term], rfl⟩
  | Prefab p =>
    cases hnav : t.navigate_path self p.path with
    | some ty =>
      exact ⟨Analysis.ofType (.Typepath ty), st, by simp only [visit_term, hnav], rfl⟩
    | none =>
      exact ⟨Analysis.empty, st.addDiag (.pathFailed p.path), by
        simp only [visit_term, hnav], rfl⟩
  | String s =>
    exact ⟨⟨.String, some (.String s)⟩, st, by simp only [visit_term]; rfl, rfl⟩
  | Resource s =>
    exact ⟨⟨.Resource, some (.Resource s)⟩, st, by simp only [visit_term]; rfl, rfl⟩
  | Int n =>
    exact ⟨⟨.Number, some (.Int n)⟩, st, by simp only [visit_term]; rfl, rfl⟩
  | Float bits =>
    exact ⟨⟨.Number, some (.Float bits)⟩, st, by simp only [visit_term]; rfl, rfl⟩
  | Expr e =>
    obtain ⟨a, st', h, henv⟩ := visit_expression_some t self st e hint
    exact ⟨a, st', by simp only [visit_term]; exact h, henv⟩
  | InterpString =>
    exact ⟨Analysis.ofType .String, st, by simp only [visit_term], rfl⟩
  | Call name args =>
    obtain ⟨as_, st1, h1, henv1⟩ := visit_args_some t self st args
    refine ⟨Analysis.empty, st1.addDiag (.callUnhandled name), ?_, ?_⟩
    · simp only [visit_term, h1]; rfl
    · rw [St.addDiag_env, henv1]
  | Ident name =>
    cases hget : Env.get st.env name with
    | some v => exact ⟨v, st, by simp only [visit_term, hget], rfl⟩
    | none =>
      cases hdecl : t.get_var_declaration self name with
      | some decl =>
        cases hty : t.type_by_path decl.type_path with
        | some ty =>
          exact ⟨Analysis.ofType (.Instance ty), st, by
            simp only [visit_term, hget, hdecl, hty], rfl⟩
        | none =>
          exact ⟨Analysis.empty, st.addDiag (.identTypeFailed name decl.type_path), by
            simp only [visit_term, hget, hdecl, hty], rfl⟩
      | none =>
        exact ⟨Analysis.empty, st.addDiag (.identUnresolved name), by
          simp only [visit_term, hget, hdecl], rfl⟩
  | Other =>
    exact ⟨Analysis.empty, st.addDiag .unhandledTerm, by simp only [visit_term], rfl⟩
termination_by sizeOf term

theorem visit_args_some (t : ObjectTree) (self : TypeRef) (st : St)
    (es : List Expression) :
    ∃ as_ st', visit_args t self st es = some (as_, st') ∧ st'.env = st.env := by
  cases es with
  | nil => exact ⟨[], st, by simp only [visit_args], rfl⟩
  | cons e rest =>
    obtain ⟨a, st1, h1, henv1⟩ := visit_expression_some t self st e none
    obtain ⟨as_, st2, h2, henv2⟩ := visit_args_some t self st1 rest
    exact ⟨a :: as_, st2, by simp only [visit_args, h1, h2], by rw [henv2, henv1]⟩
termination_by sizeOf es

end

-- ----------------------------------------------------------------------------
-- Totality of the statement walker (it cannot hit the `unwrap` panics)

theorem var_type_hint_env (t : ObjectTree) (st : St) (path : TreePath) :
    (var_type_hint t st path).2.env = st.env := by
  unfold var_type_hint
  split
  · rfl
  · split <;> rfl

theorem visit_var_some (t : ObjectTree) (self : TypeRef) (st : St)
    (var : VarStatement) : ∃ st', visit_var t self st var = some st' := by
  cases hv : var.value with
  | some expr =>
    obtain ⟨a, st1, h1, -⟩ := visit_expression_some t self
      (var_type_hint t st var.type_path).2 expr (var_type_hint t st var.type_path).1
    exact ⟨{ st1 with env := st1.env.insert var.name a },
      by simp only [visit_var, hv, h1]⟩
  | none =>
    exact ⟨{ (var_type_hint t st var.type_path).2 with
        env := (var_type_hint t st var.type_path).2.env.insert var.name Analysis.null },
      by simp only [visit_var, hv]⟩

theorem visit_vars_some (t : ObjectTree) (self : TypeRef) (st : St)
    (vars : List VarStatement) : ∃ st', visit_vars t self st vars = some st' := by
  induction vars generalizing st with
  | nil => exact ⟨st, rfl⟩
  | cons v rest ih =>
    obtain ⟨st1, h1⟩ := visit_var_some t self st v
    obtain ⟨st2, h2⟩ := ih st1
    exact ⟨st2, by simp only [visit_vars, h1]; exact h2⟩

theorem visit_expr_stmt_some (t : ObjectTree) (self : TypeRef) (st : St)
    (expr : Expression) : ∃ st', visit_expr_stmt t self st expr = some st' := by
  obtain ⟨a, st1, h1, -⟩ := visit_expression_some t self st expr none
  exact ⟨st1, by simp only [visit_expr_stmt, h1, Option.map_some']⟩

theorem visit_opt_expr_some (t : ObjectTree) (self : TypeRef) (st : St)
    (oe : Option Expression) : ∃ st', visit_opt_expr t self st oe = some st' := by
  cases oe with
  | none => exact ⟨st, rfl⟩
  | some expr =>
    obtain ⟨st1, h1⟩ := visit_expr_stmt_some t self st expr
    exact ⟨st1, by simp only [visit_opt_expr]; exact h1⟩

theorem visit_case_parts_some (t : ObjectTree) (self : TypeRef) (st : St)
    (parts : List Case) : ∃ st', visit_case_parts t self st parts = some st' := by
  induction parts generalizing st with
  | nil => exact ⟨st, rfl⟩
  | cons c rest ih =>
    cases c with
    | Exact e =>
      obtain ⟨a, st1, h1, -⟩ := visit_expression_some t self st e none
      obtain ⟨st2, h2⟩ := ih st1
      exact ⟨st2, by simp only [visit_case_parts, h1]; exact h2⟩
    | Range start end_ =>
      obtain ⟨a, st1, h1, -⟩ := visit_expression_some t self st start none
      obtain ⟨a2, st2, h2, -⟩ := visit_expression_some t self st1 end_ none
      obtain ⟨st3, h3⟩ := ih st2
      exact ⟨st3, by simp only [visit_case_parts, h1, h2]; exact h3⟩

mutual

theorem visit_statement_some (t : ObjectTree) (self : TypeRef) (st : St)
    (s : Statement) : ∃ st', visit_statement t self st s = some st' := by
  cases s with
  | Expr expr =>
    obtain ⟨st1, h1⟩ := visit_expr_stmt_some t self st expr
    exact ⟨st1, by simp only [visit_statement]; exact h1⟩
  | Return oe =>
    cases oe with
    | some expr =>
      obtain ⟨st1, h1⟩ := visit_expr_stmt_some t self st expr
      exact ⟨st1, by simp only [visit_statement]; exact h1⟩
    | none => exact ⟨st, by simp only [visit_statement]⟩
  | Throw expr =>
    obtain ⟨st1, h1⟩ := visit_expr_stmt_some t self st expr
    exact ⟨st1, by simp only [visit_statement]; exact h1⟩
  | While condition block =>
    obtain ⟨st1, h1⟩ := visit_expr_stmt_some t self st condition
    obtain ⟨st2, h2⟩ := visit_block_some t self st1 block
    exact ⟨st2, by simp only [visit_statement, h1, Option.some_bind]; exact h2⟩
  | DoWhile block condition =>
    obtain ⟨st1, h1⟩ := visit_block_some t self st block
    obtain ⟨st2, h2⟩ := visit_expr_stmt_some t self st1 condition
    exact ⟨st2, by simp only [visit_statement, h1, Option.some_bind]; exact h2⟩
  | If arms else_arm =>
    obtain ⟨st1, h1⟩ := visit_arms_some t self st arms
    obtain ⟨st2, h2⟩ := visit_opt_block_some t self st1 else_arm
    exact ⟨st2, by simp only [visit_statement, h1, Option.some_bind]; exact h2⟩
  | ForLoop init test inc block =>
    obtain ⟨st1, h1⟩ := visit_opt_statement_some t self st init
    obtain ⟨st2, h2⟩ := visit_opt_expr_some t self st1 test
    obtain ⟨st3, h3⟩ := visit_opt_statement_some t self st2 inc
    obtain ⟨st4, h4⟩ := visit_block_some t self st3 block
    exact ⟨st4, by simp only [visit_statement, h1, h2, h3, Option.some_bind]; exact h4⟩
  | ForList in_list block =>
    obtain ⟨st1, h1⟩ := visit_opt_expr_some t self st in_list
    obtain ⟨st2, h2⟩ := visit_block_some t self st1 block
    exact ⟨st2, by simp only [visit_statement, h1, Option.some_bind]; exact h2⟩
  | ForRange start end_ step block =>
    obtain ⟨st1, h1⟩ := visit_expr_stmt_some t self st start
    obtain ⟨st2, h2⟩ := visit_expr_stmt_some t self st1 end_
    obtain ⟨st3, h3⟩ := visit_opt_expr_some t self st2 step
    obtain ⟨st4, h4⟩ := visit_block_some t self st3 block
    exact ⟨st4, by simp only [visit_statement, h1, h2, h3, Option.some_bind]; exact h4⟩
  | Var var =>
    obtain ⟨st1, h1⟩ := visit_var_some t self st var
    exact ⟨st1, by simp only [visit_statement]; exact h1⟩
  | Vars vars =>
    obtain ⟨st1, h1⟩ := visit_vars_some t self st vars
    exact ⟨st1, by simp only [visit_statement]; exact h1⟩
  | Setting => exact ⟨st, by simp only [visit_statement]⟩
  | Spawn delay block =>
    obtain ⟨st1, h1⟩ := visit_opt_expr_some t self st delay
    obtain ⟨st2, h2⟩ := visit_block_some t self st1 block
    exact ⟨st2, by simp only [visit_statement, h1, Option.some_bind]; exact h2⟩
  | Switch input cases_ default =>
    obtain ⟨st1, h1⟩ := visit_expr_stmt_some t self st input
    obtain ⟨st2, h2⟩ := visit_cases_some t self st1 cases_
    obtain ⟨st3, h3⟩ := visit_opt_block_some t self st2 default
    exact ⟨st3, by simp only [visit_statement, h1, h2, Option.some_bind]; exact h3⟩
  | TryCatch try_block catch_block =>
    obtain ⟨st1, h1⟩ := visit_block_some t self st try_block
    obtain ⟨st2, h2⟩ := visit_block_some t self st1 catch_block
    exact ⟨st2, by simp only [visit_statement, h1, Option.some_bind]; exact h2⟩
  | Continue => exact ⟨st, by simp only [visit_statement]⟩
  | Break => exact ⟨st, by simp only [visit_statement]⟩
  | Label block =>
    obtain ⟨st1, h1⟩ := visit_block_some t self st block
    exact ⟨st1, by simp only [visit_statement]; exact h1⟩
  | Del expr =>
    obtain ⟨st1, h1⟩ := visit_expr_stmt_some t self st expr
    exact ⟨st1, by simp only [visit_statement]; exact h1⟩
termination_by sizeOf s

theorem visit_opt_statement_some (t : ObjectTree) (self : TypeRef) (st : St)
    (os : Option Statement) : ∃ st', visit_opt_statement t self st os = some st' := by
  cases os with
  | none => exact ⟨st, by simp only [visit_opt_statement]⟩
  | some s =>
    obtain ⟨st1, h1⟩ := visit_statement_some t self st s
    exact ⟨st1, by simp only [visit_opt_statement]; exact h1⟩
termination_by sizeOf os

theorem visit_opt_block_some (t : ObjectTree) (self : TypeRef) (st : St)
    (ob : Option (List Statement)) : ∃ st', visit_opt_block t self st ob = some st' := by
  cases ob with
  | none => exact ⟨st, by simp only [visit_opt_block]⟩
  | some block =>
    obtain ⟨st1, h1⟩ := visit_block_some t self st block
    exact ⟨st1, by simp only [visit_opt_block]; exact h1⟩
termination_by sizeOf ob

theorem visit_block_some (t : ObjectTree) (self : TypeRef) (st : St)
    (block : List Statement) : ∃ st', visit_block t self st block = some st' := by
  cases block with
  | nil => exact ⟨st, by simp only [visit_block]⟩
  | cons stmt rest =>
    obtain ⟨st1, h1⟩ := visit_statement_some t self st stmt
    obtain ⟨st2, h2⟩ := visit_block_some t self st1 rest
    exact ⟨st2, by simp only [visit_block, h1, Option.some_bind]; exact h2⟩
termination_by sizeOf block

theorem visit_arms_some (t : ObjectTree) (self : TypeRef) (st : St)
    (arms : List (Expression × List Statement)) :
    ∃ st', visit_arms t self st arms = some st' := by
  cases arms with
  | nil => exact ⟨st, by simp only [visit_arms]⟩
  | cons arm rest =>
    obtain ⟨condition, block⟩ := arm
    obtain ⟨st1, h1⟩ := visit_expr_stmt_some t self st condition
    obtain ⟨st2, h2⟩ := visit_block_some t self st1 block
    obtain ⟨st3, h3⟩ := visit_arms_some t self st2 rest
    exact ⟨st3, by simp only [visit_arms, h1, h2, Option.some_bind]; exact h3⟩
termination_by sizeOf arms

theorem visit_cases_some (t : ObjectTree) (self : TypeRef) (st : St)
    (cases_ : List (List Case × List Statement)) :
    ∃ st', visit_cases t self st cases_ = some st' := by
  cases cases_ with
  | nil => exact ⟨st, by simp only [visit_cases]⟩
  | cons case_ rest =>
    obtain ⟨case, block⟩ := case_
    obtain ⟨st1, h1⟩ := visit_case_parts_some t self st case
    obtain ⟨st2, h2⟩ := visit_block_some t self st1 block
    obtain ⟨st3, h3⟩ := visit_cases_some t self st2 rest
    exact ⟨st3, by simp only [visit_cases, h1, h2, Option.some_bind]; exact h3⟩
termination_by sizeOf cases_

end

-- ----------------------------------------------------------------------------
-- Claim theorems

/-- Claim C10: for every syntactically valid procedure body, the walk
(`visit_block` with its mutual recursion through `visit_statement`,
`visit_expression`, `visit_term` and `visit_follow`) terminates — the
evaluator is a total function of the syntax tree, established by the
well-founded recursion of its definition — and every expression node
receives an abstract value: the walk and the evaluator never hit the
modelled `unwrap` failure (the only failure mode, the documented builtin
well-known-class lookup, lives outside the per-body walk). -/
theorem claim_C10_walk_total (t : ObjectTree) (self : TypeRef) :
    (∀ st block, ∃ st', visit_block t self st block = some st') ∧
    (∀ st e hint, ∃ a st', visit_expression t self st e hint = some (a, st')) ∧
    (∀ ty, (ProcAnalyzer.new t ty).isSome = (t.find "/mob").isSome) := by
  refine ⟨?_, ?_, ?_⟩
  · intro st block
    exact visit_block_some t self st block
  · intro st e hint
    obtain ⟨a, st', h, -⟩ := visit_expression_some t self st e hint
    exact ⟨a, st', h⟩
  · intro ty
    cases h : t.find "/mob" <;> simp [ProcAnalyzer.new, h]

/-- Claim C9: evaluating any expression leaves the environment unchanged —
whatever `visit_expression` returns, the resulting state carries exactly the
input state's bindings — and a compound-assignment expression evaluates the
target, then returns the right-hand side's abstract value with no
write-back into the environment; a return statement's evaluated value
likewise leaves every binding (the implicit return slot included)
untouched. -/
theorem claim_C9_expression_frame (t : ObjectTree) (self : TypeRef) :
    (∀ st e hint a st', visit_expression t self st e hint = some (a, st') →
      st'.env = st.env) ∧
    (∀ st op lhs rhs hint a st',
      visit_expression t self st (.AssignOp op lhs rhs) hint = some (a, st') →
      ∃ a1 st1, visit_expression t self st lhs none = some (a1, st1) ∧
        visit_expression t self st1 rhs none = some (a, st')) ∧
    (∀ st e st', visit_statement t self st (.Return (some e)) = some st' →
      st'.env = st.env) := by
  refine ⟨?_, ?_, ?_⟩
  · intro st e hint a st' h
    obtain ⟨a0, st0', h0, henv⟩ := visit_expression_some t self st e hint
    rw [h] at h0
    simp only [Option.some.injEq, Prod.mk.injEq] at h0
    obtain ⟨-, rfl⟩ := h0
    exact henv
  · intro st op lhs rhs hint a st' h
    obtain ⟨a1, st1, h1, -⟩ := visit_expression_some t self st lhs none
    refine ⟨a1, st1, h1, ?_⟩
    simpa only [visit_expression, h1] using h
  · intro st e st' h
    obtain ⟨a0, st0', h0, henv⟩ := visit_expression_some t self st e none
    simp only [visit_statement, visit_expr_stmt, h0, Option.map_some',
      Option.some.injEq] at h
    rw [← h]
    exact henv

/-- Witness for C9: on the concrete compound assignment `x += 2` (target
`x` unbound — its evaluation only emits a diagnostic), the result is the
right-hand side's abstract value (number 2) and the environment is
unchanged. -/
theorem claim_C9_witness :
    ((st0.addDiag (.identUnresolved "x")).env = st0.env) ∧
    (∃ a1 st1,
      visit_expression t0 0 st0 (.Base [] (.Ident "x") []) none = some (a1, st1) ∧
      visit_expression t0 0 st1 (.Base [] (.Int 2) []) none =
        some (⟨.Number, some (.Int 2)⟩, st0.addDiag (.identUnresolved "x"))) ∧
    (st0.env = st0.env) := by
  refine ⟨?_, ?_, ?_⟩
  · exact (claim_C9_expression_frame t0 0).1 st0
      (.AssignOp .AddAssign (.Base [] (.Ident "x") []) (.Base [] (.Int 2) []))
      none ⟨.Number, some (.Int 2)⟩ (st0.addDiag (.identUnresolved "x"))
      (by simp [visit_expression, visit_term, visit_follows, visit_unaries,
        Analysis.from_value, Ty.from_constant, Env.get, st0, t0])
  · exact (claim_C9_expression_frame t0 0).2.1 st0 .AddAssign
      (.Base [] (.Ident "x") []) (.Base [] (.Int 2) []) none
      ⟨.Number, some (.Int 2)⟩ (st0.addDiag (.identUnresolved "x"))
      (by simp [visit_expression, visit_term, visit_follows, visit_unaries,
        Analysis.from_value, Ty.from_constant, Env.get, st0, t0])
  · exact (claim_C9_expression_frame t0 0).2.2 st0 (.Base [] (.Int 7) []) st0
      (by simp [visit_statement, visit_expr_stmt, visit_expression, visit_term,
        visit_follows, visit_unaries, Analysis.from_value, Ty.from_constant])

/-- Claim C8: the unary typing rules, in the match order of the code:
logical negation yields number for every operand shape; every other unary
operator yields number on a number operand; every other unary operator on
the unconstrained shape yields unconstrained silently; every remaining
combination emits a diagnostic and yields unconstrained. -/
theorem claim_C8_unary_rules :
    ∀ st a,
      (visit_unary st a .Not = (Analysis.ofType .Number, st)) ∧
      (∀ op, op ≠ .Not → a.ty = .Number →
        visit_unary st a op = (Analysis.ofType .Number, st)) ∧
      (∀ op, op ≠ .Not → a.ty = .Any →
        visit_unary st a op = (Analysis.empty, st)) ∧
      (∀ op, op ≠ .Not → a.ty ≠ .Number → a.ty ≠ .Any →
        visit_unary st a op = (Analysis.empty, st.addDiag .unaryUnhandled)) := by
  intro st a
  rcases a with ⟨ty, v⟩
  refine ⟨?_, ?_, ?_, ?_⟩
  · cases ty <;> rfl
  · intro op hop hty
    cases ty <;> simp_all <;> cases op <;> simp_all <;> rfl
  · intro op hop hty
    cases ty <;> simp_all <;> cases op <;> simp_all <;> rfl
  · intro op hop hty1 hty2
    cases op <;> cases ty <;> simp_all <;> rfl

/-- Witness for C8: logical negation on a string yields number; negation on
a number yields number; negation on unconstrained yields unconstrained with
no diagnostic; bitwise negation on a string yields unconstrained with a
diagnostic. -/
theorem claim_C8_witness :
    (visit_unary st0 (Analysis.ofType .String) .Not = (Analysis.ofType .Number, st0)) ∧
    (visit_unary st0 (Analysis.ofType .Number) .Neg = (Analysis.ofType .Number, st0)) ∧
    (visit_unary st0 Analysis.empty .Neg = (Analysis.empty, st0)) ∧
    (visit_unary st0 (Analysis.ofType .String) .BitNot =
      (Analysis.empty, st0.addDiag .unaryUnhandled)) :=
  ⟨(claim_C8_unary_rules st0 (Analysis.ofType .String)).1,
   (claim_C8_unary_rules st0 (Analysis.ofType .Number)).2.1 .Neg (by decide) rfl,
   (claim_C8_unary_rules st0 Analysis.empty).2.2.1 .Neg (by decide) rfl,
   (claim_C8_unary_rules st0 (Analysis.ofType .String)).2.2.2 .BitNot (by decide)
     (by decide) (by decide)⟩

/-- Claim C4: wrapping a constant into an abstract value yields a value
whose constant reads back unchanged and whose shape is exactly the
constant's shape under the constant-to-shape rule; the other abstract-value
constructors (`empty`, `null`, shape-only conversion) also satisfy the
consistency invariant. -/
theorem claim_C4_consistency (t : ObjectTree) :
    (∀ c a, Analysis.from_value t c = some a →
      a.value = some c ∧ Ty.from_constant t c = some a.ty) ∧
    consistent t Analysis.empty ∧
    consistent t Analysis.null ∧
    (∀ ty, consistent t (Analysis.ofType ty)) := by
  refine ⟨?_, ?_, ?_, ?_⟩
  · intro c a h
    simp only [Analysis.from_value, Option.map_eq_some'] at h
    obtain ⟨ty, hty, rfl⟩ := h
    exact ⟨rfl, hty⟩
  · intro c hc
    cases hc
  · intro c hc
    cases hc
    rfl
  · intro ty c hc
    cases hc

/-- Witness for C4: wrapping the string constant `"a"` produces the string
shape carrying that constant back unchanged. -/
theorem claim_C4_witness :
    (⟨.String, some (.String "a")⟩ : Analysis).value = some (.String "a") ∧
    Ty.from_constant t0 (.String "a") = some (⟨.String, some (.String "a")⟩ : Analysis).ty :=
  (claim_C4_consistency t0).1 (.String "a") ⟨.String, some (.String "a")⟩ rfl

/-- Claim C5: a bare identifier resolves in order: an environment binding of
the exact name is returned unchanged (locals shadow fields); otherwise a
declared field whose declared type path resolves yields instance-of that
class; a declared field whose type path fails to resolve, or no declaration
at all, emits a diagnostic and yields unconstrained. -/
theorem claim_C5_ident_resolution (t : ObjectTree) (self : TypeRef) (st : St)
    (name : String) (hint : Option TypeRef) :
    (∀ v, Env.get st.env name = some v →
      visit_term t self st (.Ident name) hint = some (v, st)) ∧
    (∀ decl ty, Env.get st.env name = none →
      t.get_var_declaration self name = some decl →
      t.type_by_path decl.type_path = some ty →
      visit_term t self st (.Ident name) hint =
        some (Analysis.ofType (.Instance ty), st)) ∧
    (∀ decl, Env.get st.env name = none →
      t.get_var_declaration self name = some decl →
      t.type_by_path decl.type_path = none →
      visit_term t self st (.Ident name) hint =
        some (Analysis.empty, st.addDiag (.identTypeFailed name decl.type_path))) ∧
    (Env.get st.env name = none →
      t.get_var_declaration self name = none →
      visit_term t self st (.Ident name) hint =
        some (Analysis.empty, st.addDiag (.identUnresolved name))) := by
  refine ⟨?_, ?_, ?_, ?_⟩
  · intro v hget
    simp only [visit_term, hget]
  · intro decl ty hget hdecl hty
    simp only [visit_term, hget, hdecl, hty]
  · intro decl hget hdecl hty
    simp only [visit_term, hget, hdecl, hty]
  · intro hget hdecl
    simp only [visit_term, hget, hdecl]

/-- Witness for C5 (the shadowing example): class node 1 declares field `n`
of type `obj/foo`, but the environment binds local `n` to number, so
evaluating `n` yields number (the local wins). -/
theorem claim_C5_witness :
    Env.get [("n", Analysis.ofType .Number)] "n" = some (Analysis.ofType .Number) ∧
    t0.get_var_declaration 1 "n" = some ⟨["obj", "foo"]⟩ ∧
    visit_term t0 1 ⟨[("n", Analysis.ofType .Number)], []⟩ (.Ident "n") none =
      some (Analysis.ofType .Number, ⟨[("n", Analysis.ofType .Number)], []⟩) := by
  refine ⟨by rfl, by decide, ?_⟩
  exact (claim_C5_ident_resolution t0 1 ⟨[("n", Analysis.ofType .Number)], []⟩
    "n" none).1 (Analysis.ofType .Number) (by rfl)

/-- Claim C6: implicit-type construction (`new` with no explicit class)
yields instance-of the hinted class when a hint is present, and a
diagnostic plus unconstrained when no hint is present; in particular
`var/A/B/C x = new(...)` with the construction as the sole initializer
binds `x` to instance-of the class the declared path resolves to. -/
theorem claim_C6_implicit_new (t : ObjectTree) (self : TypeRef) :
    (∀ st args h, visit_term t self st (.New .Implicit args) (some h) =
      some (Analysis.ofType (.Instance h), st)) ∧
    (∀ st args, visit_term t self st (.New .Implicit args) none =
      some (Analysis.empty, st.addDiag .implicitNewNoHint)) ∧
    (∀ st p ps name r args, t.type_by_path (p :: ps) = some r →
      visit_var t self st ⟨p :: ps, name, some (.Base [] (.New .Implicit args) [])⟩ =
        some { st with env := st.env.insert name (Analysis.ofType (.Instance r)) }) := by
  refine ⟨?_, ?_, ?_⟩
  · intro st args h
    simp only [visit_term]
  · intro st args
    simp only [visit_term]
  · intro st p ps name r args hres
    simp [visit_var, var_type_hint, hres, visit_expression, visit_term,
      visit_follows, visit_unaries]

/-- Witness for C6: with `A/B/C` resolving to class node 5,
`var/A/B/C x = new()` binds `x` to instance-of node 5. -/
theorem claim_C6_witness :
    t0.type_by_path ["A", "B", "C"] = some 5 ∧
    visit_var t0 0 st0 ⟨["A", "B", "C"], "x", some (.Base [] (.New .Implicit none) [])⟩ =
      some { st0 with env := st0.env.insert "x" (Analysis.ofType (.Instance 5)) } :=
  ⟨by decide,
   (claim_C6_implicit_new t0 0).2.2 st0 "A" ["B", "C"] "x" 5 none (by decide)⟩

/-- Claim C7: a variable declaration resolves its optional declared type
path (an empty path means no hint; a failed resolution emits a diagnostic
and leaves the hint absent), evaluates the initializer under that hint (or
uses the null abstract value when absent), and binds the declared name,
the new binding shadowing any prior one. -/
theorem claim_C7_var_statement (t : ObjectTree) (self : TypeRef) (st : St) :
    (var_type_hint t st [] = (none, st)) ∧
    (∀ p ps r, t.type_by_path (p :: ps) = some r →
      var_type_hint t st (p :: ps) = (some r, st)) ∧
    (∀ p ps, t.type_by_path (p :: ps) = none →
      var_type_hint t st (p :: ps) = (none, st.addDiag (.varTypeNotFound (p :: ps)))) ∧
    (∀ path name expr a st',
      visit_expression t self (var_type_hint t st path).2 expr
        (var_type_hint t st path).1 = some (a, st') →
      visit_var t self st ⟨path, name, some expr⟩ =
        some { st' with env := st'.env.insert name a } ∧
      Env.get (st'.env.insert name a) name = some a) ∧
    (∀ path name,
      visit_var t self st ⟨path, name, none⟩ =
        some { (var_type_hint t st path).2 with
          env := (var_type_hint t st path).2.env.insert name Analysis.null } ∧
      Env.get ((var_type_hint t st path).2.env.insert name Analysis.null) name =
        some Analysis.null) := by
  refine ⟨?_, ?_, ?_, ?_, ?_⟩
  · rfl
  · intro p ps r hres
    simp only [var_type_hint, List.isEmpty_cons, Bool.false_eq_true, if_false, hres]
  · intro p ps hres
    simp only [var_type_hint, List.isEmpty_cons, Bool.false_eq_true, if_false, hres]
  · intro path name expr a st' h
    constructor
    · simp only [visit_var, h]
    · simp [Env.get, Env.insert]
  · intro path name
    constructor
    · simp only [visit_var]
    · simp [Env.get, Env.insert]

/-- Witness for C7: the unresolvable declared path `Z` emits a diagnostic
and leaves the hint absent; a hintless, initializerless declaration binds
the name to the null abstract value. -/
theorem claim_C7_witness :
    (var_type_hint t0 st0 ["Z"] = (none, st0.addDiag (.varTypeNotFound ["Z"]))) ∧
    (visit_var t0 0 st0 ⟨[], "y", none⟩ =
      some { (var_type_hint t0 st0 []).2 with
        env := (var_type_hint t0 st0 []).2.env.insert "y" Analysis.null } ∧
     Env.get ((var_type_hint t0 st0 []).2.env.insert "y" Analysis.null) "y" =
      some Analysis.null) :=
  ⟨(claim_C7_var_statement t0 0 st0).2.2.1 "Z" [] (by decide),
   (claim_C7_var_statement t0 0 st0).2.2.2.2 [] "y"⟩

/-- Claim C2: the caller's expected-shape hint reaches the term exactly when
the follow chain and the unary chain are both empty; with at least one
follow accessor or unary operator the whole evaluation is independent of
the caller's hint (the term is evaluated with no hint); and an ordinary
field access makes the primary expression evaluate to unconstrained. -/
theorem claim_C2_hint_boundary (t : ObjectTree) (self : TypeRef) :
    ∀ st u tm f hint,
      (f = [] → u = [] →
        visit_expression t self st (.Base u tm f) hint = visit_term t self st tm hint) ∧
      (f ≠ [] ∨ u ≠ [] →
        visit_expression t self st (.Base u tm f) hint =
          visit_expression t self st (.Base u tm f) none) ∧
      (∀ k nm, f = [.Field k nm] → u = [] → ∃ st',
        visit_expression t self st (.Base u tm f) hint = some (Analysis.empty, st')) := by
  intro st u tm f hint
  refine ⟨?_, ?_, ?_⟩
  · rintro rfl rfl
    simp only [visit_expression, List.isEmpty_nil, Bool.and_self, if_true]
    cases h : visit_term t self st tm hint with
    | none => rfl
    | some p => simp [visit_follows, visit_unaries]
  · intro hne
    have hc : (f.isEmpty && u.isEmpty) = false := by
      rcases hne with h | h <;> cases f <;> cases u <;> simp_all
    simp only [visit_expression, hc, Bool.false_eq_true, if_false]
  · rintro k nm rfl rfl
    have hc : (([Follow.Field k nm].isEmpty &&
      List.isEmpty ([] : List UnaryOp)) = false) := rfl
    obtain ⟨a1, st1, h1, -⟩ := visit_term_some t self st tm none
    refine ⟨(visit_follow st1 a1 (.Field k nm)).2, ?_⟩
    simp only [visit_expression, hc, Bool.false_eq_true, if_false, h1]
    cases k <;> simp [visit_follows, visit_unaries, visit_follow]

/-- Witness for C2: with no follow and no unary the hint (class node 5)
reaches the term — `new()` under the hint becomes instance-of 5 — while one
`.field` follow blocks the hint and the whole expression degrades to
unconstrained. -/
theorem claim_C2_witness :
    (visit_expression t0 0 st0 (.Base [] (.New .Implicit none) []) (some 5) =
      visit_term t0 0 st0 (.New .Implicit none) (some 5)) ∧
    (visit_expression t0 0 st0 (.Base [] (.Ident "n") [.Field .Dot "f"]) (some 5) =
      visit_expression t0 0 st0 (.Base [] (.Ident "n") [.Field .Dot "f"]) none) ∧
    (∃ st', visit_expression t0 0 st0
      (.Base [] (.Ident "n") [.Field .Dot "f"]) (some 5) =
        some (Analysis.empty, st')) :=
  ⟨(claim_C2_hint_boundary t0 0 st0 [] (.New .Implicit none) [] (some 5)).1 rfl rfl,
   (claim_C2_hint_boundary t0 0 st0 [] (.Ident "n") [.Field .Dot "f"]
     (some 5)).2.1 (Or.inl (by simp)),
   (claim_C2_hint_boundary t0 0 st0 [] (.Ident "n") [.Field .Dot "f"]
     (some 5)).2.2 .Dot "f" rfl rfl⟩

/-- Claim C3: a conditional chain evaluates each condition with no hint and
walks every arm's block and the else block in the same single environment
in textual order; in the spec's example the variable `x` ends bound to the
else arm's number value, shadowing the first arm's string binding. -/
theorem claim_C3_branch_non_isolation (t : ObjectTree) (self : TypeRef) (st : St) :
    (∀ cond blk els, visit_statement t self st (.If [(cond, blk)] (some els)) =
      (visit_expr_stmt t self st cond).bind fun st1 =>
        (visit_block t self st1 blk).bind fun st2 => visit_block t self st2 els) ∧
    (visit_statement t self st exIf =
      some { st with env := ("x", ⟨.Number, some (.Int 1)⟩) ::
        ("x", ⟨.String, some (.String "a")⟩) :: st.env }) ∧
    (Env.get (("x", (⟨.Number, some (.Int 1)⟩ : Analysis)) ::
        ("x", (⟨.String, some (.String "a")⟩ : Analysis)) :: st.env) "x" =
      some ⟨.Number, some (.Int 1)⟩) := by
  refine ⟨?_, ?_, ?_⟩
  · intro cond blk els
    simp only [visit_statement, visit_arms, visit_opt_block, Option.bind_assoc,
      Option.some_bind]
  · simp [exIf, visit_statement, visit_arms, visit_block, visit_opt_block,
      visit_var, visit_expr_stmt, visit_expression, visit_term,
      Analysis.from_value, Ty.from_constant, visit_follows, visit_unaries,
      Env.insert, var_type_hint]
  · simp [Env.get]

/-- Counterexample to C1 as stated: an ordinary field access and an
ordinary method call both degrade to the unconstrained shape while leaving
the diagnostic stream untouched — they degrade silently, contradicting
"exactly that evaluation also emits a notice ... (ordinary field access,
ordinary method call)" and "no evaluation degrades to unconstrained
silently". -/
theorem claim_C1_counterexample :
    visit_follow st0 Analysis.empty (.Field .Dot "f") = (Analysis.empty, st0) ∧
    visit_follow st0 Analysis.empty (.Call .Dot "f" []) = (Analysis.empty, st0) ∧
    st0.diags = [] ∧ Analysis.empty.ty = .Any :=
  ⟨rfl, rfl, rfl, rfl⟩

/-- Claim C1 as amended: of the degrade-to-unconstrained events, unresolved
path, unresolved identifier, missing hint for implicit construction,
unhandled syntax form, ordinary indexing, binary operators and call results
each emit exactly one notice to the diagnostic sink, while ordinary field
accesses and ordinary method calls (like the by-design conditional-dispatch
accessors) degrade to unconstrained silently. -/
theorem claim_C1_degrade_notices (t : ObjectTree) (self : TypeRef) :
    ∀ st a hint,
      (∀ e, visit_follow st a (.Index e) = (Analysis.empty, st.addDiag .followIndex)) ∧
      (∀ k n, visit_follow st a (.Field k n) = (Analysis.empty, st)) ∧
      (∀ k n args, visit_follow st a (.Call k n args) = (Analysis.empty, st)) ∧
      (∀ l r op, visit_binary st l r op =
        (Analysis.empty, st.addDiag .binaryUnhandled)) ∧
      (∀ src p args, visit_call st src p args =
        (Analysis.empty, st.addDiag (.callUnhandled p))) ∧
      (∀ args, visit_term t self st (.New .Implicit args) none =
        some (Analysis.empty, st.addDiag .implicitNewNoHint)) ∧
      (∀ pf args, t.navigate_path self pf.path = none →
        visit_term t self st (.New (.Prefab pf) args) hint =
          some (Analysis.empty, st.addDiag (.pathFailed pf.path))) ∧
      (∀ pf, t.navigate_path self pf.path = none →
        visit_term t self st (.Prefab pf) hint =
          some (Analysis.empty, st.addDiag (.pathFailed pf.path))) ∧
      (∀ n, Env.get st.env n = none → t.get_var_declaration self n = none →
        visit_term t self st (.Ident n) hint =
          some (Analysis.empty, st.addDiag (.identUnresolved n))) ∧
      (∀ n decl, Env.get st.env n = none →
        t.get_var_declaration self n = some decl →
        t.type_by_path decl.type_path = none →
        visit_term t self st (.Ident n) hint =
          some (Analysis.empty, st.addDiag (.identTypeFailed n decl.type_path))) ∧
      (visit_term t self st .Other hint =
        some (Analysis.empty, st.addDiag .unhandledTerm)) := by
  intro st a hint
  refine ⟨fun e => rfl, ?_, ?_, fun l r op => rfl, fun src p args => rfl,
    ?_, ?_, ?_, ?_, ?_, ?_⟩
  · intro k n
    cases k <;> rfl
  · intro k n args
    cases k <;> rfl
  · intro args
    simp only [visit_term]
  · intro pf args hnav
    simp only [visit_term, hnav]
  · intro pf hnav
    simp only [visit_term, hnav]
  · intro n hget hdecl
    simp only [visit_term, hget, hdecl]
  · intro n decl hget hdecl hty
    simp only [visit_term, hget, hdecl, hty]
  · simp only [visit_term]

/-- Witness for the amended C1: an unresolvable bare path and an undeclared
identifier each emit their notice while degrading to unconstrained. -/
theorem claim_C1_witness :
    visit_term t0 0 st0 (.Prefab ⟨[(.slash, "Q")]⟩) none =
      some (Analysis.empty, st0.addDiag (.pathFailed [(.slash, "Q")])) ∧
    visit_term t0 0 st0 (.Ident "zz") none =
      some (Analysis.empty, st0.addDiag (.identUnresolved "zz")) :=
  ⟨(claim_C1_degrade_notices t0 0 st0 Analysis.empty none).2.2.2.2.2.2.2.1
      ⟨[(.slash, "Q")]⟩ rfl,
   (claim_C1_degrade_notices t0 0 st0 Analysis.empty none).2.2.2.2.2.2.2.2.1
      "zz" rfl (by decide)⟩
